import Mathlib

/-!
Shallow embedding of the optimized melodic generator
(`MelodicGenerator` in `src/src/test.py`) and proofs about it.

Modelling conventions:
* Python floats are modelled as rationals (`ℚ`).
* The seeded global RNG (`random.seed(seed)` followed by calls to
  `random.random`, `random.choice`, `random.choices`) is modelled as a
  deterministic stream `σ : ℕ → ℚ` of draws in `[0, 1)` together with a
  cursor `k`; each primitive consumes exactly one draw.
  `random.choice l` picks index `⌊u * len l⌋` (clamped); `random.choices`
  follows CPython: cumulative weights, then `bisect_right` of
  `u * total` with upper bound `len - 1`.
* `pnoise1` comes from the external `noise` library (not repository
  code); it is a deterministic pure function and is modelled as an
  explicit function parameter `pnoise1 : ℚ → ℚ`.
* Out-of-range list reads (Python `IndexError`) are totalized with
  `List.getD`; the claim about index safety is stated arithmetically.
-/

namespace MusicGen

/-- Harmonic function of a chord (keys of `chord_library`). -/
inductive HFunc
  | tonic
  | subdominant
  | dominant
deriving DecidableEq

/-- Mode of the key, validated by the `assert` in `__init__`. -/
inductive Mode
  | major
  | minor
deriving DecidableEq

/-- The chord bank `chord_library` from `test.py`. -/
def chord_library : HFunc → List (String × List ℤ)
  | .tonic => [("C", [60, 64, 67]), ("Am", [57, 60, 64]), ("Em", [52, 55, 59])]
  | .subdominant => [("F", [53, 57, 60]), ("Dm", [50, 53, 57])]
  | .dominant => [("G", [55, 59, 62]), ("G7", [55, 59, 62, 65]), ("Bdim", [59, 62, 65])]

/-- The transition table `chord_progression_rules` from `test.py`
(duplicated entries encode non-uniform probability). -/
def chord_progression_rules : HFunc → List HFunc
  | .tonic => [.tonic, .subdominant, .subdominant, .dominant]
  | .subdominant => [.subdominant, .dominant, .tonic]
  | .dominant => [.tonic, .tonic, .subdominant]

/-- `MAJOR_INTERVALS` from `test.py`. -/
def MAJOR_INTERVALS : List ℤ := [0, 2, 4, 5, 7, 9, 11]

/-- `MINOR_INTERVALS` from `test.py`. -/
def MINOR_INTERVALS : List ℤ := [0, 2, 3, 5, 7, 8, 10]

/-- The interval set selected in `_build_global_scale`. -/
def intervalsOf : Mode → List ℤ
  | .major => MAJOR_INTERVALS
  | .minor => MINOR_INTERVALS

/-- Constructor arguments of `MelodicGenerator` (the seed is absorbed
into the draw stream `σ`; `debug` only prints). -/
structure Config where
  mode : Mode := .major
  base_note : ℤ := 60
  total_steps : ℕ := 128
  steps_per_bar : ℕ := 16
  max_span_semitones : ℤ := 12
  max_step_jump : ℤ := 7
  sustain_probs : List ℚ := [96/100, 95/100, 94/100, 92/100, 90/100, 88/100, 73/100, 6/10]
  rest_prob : ℚ := 5/100
  trend_strength : ℚ := 4/10
  chord_change_every : ℕ := 16
  chord_weight_mul : ℚ := 3/2

/-- Floor of a nonnegative rational as a natural number (used to model
index selection of `random.choice`; negative input clamps to 0). -/
def pyFloorNat (q : ℚ) : ℕ := (q.num / (q.den : ℤ)).toNat

/-- Model of `random.choice l`: consume one draw `u = σ k` and pick
index `⌊u * len l⌋`, clamped into range. -/
def randChoice {α : Type} (σ : ℕ → ℚ) (k : ℕ) (l : List α) (d : α) : α × ℕ :=
  (l.getD (min (pyFloorNat (σ k * l.length)) (l.length - 1)) d, k + 1)

/-- Cumulative sums (Python `itertools.accumulate`), with a running
accumulator. -/
def cumSumFrom (acc : ℚ) : List ℚ → List ℚ
  | [] => []
  | w :: ws => (acc + w) :: cumSumFrom (acc + w) ws

/-- Cumulative sums of a weight list. -/
def cumSum (l : List ℚ) : List ℚ := cumSumFrom 0 l

/-- Python `bisect.bisect(a, x, 0, hi)` on a monotone list: the number
of leading entries `≤ x`, capped at `hi`. -/
def bisectRight (a : List ℚ) (x : ℚ) (hi : ℕ) : ℕ :=
  min (a.takeWhile (fun c => decide (c ≤ x))).length hi

/-- Model of `random.choices(pop, weights=ws, k=1)[0]` following
CPython: draw `u`, binary-search `u * total` in the cumulative weights
with upper bound `len pop - 1`. -/
def randChoicesW (σ : ℕ → ℚ) (k : ℕ) (pop : List ℤ) (weights : List ℚ) : ℤ × ℕ :=
  let cum := cumSum weights
  let total := cum.getLastD 0
  (pop.getD (bisectRight cum (σ k * total) (pop.length - 1)) 0, k + 1)

/-- Python 3 `round` (half to even) on a rational, as used in
`int(round(self.base_note + current_offset))`. -/
def pyRound (x : ℚ) : ℤ :=
  let f : ℤ := (x.num).fdiv (x.den : ℤ)
  if x - (f : ℚ) < 1/2 then f
  else if x - (f : ℚ) > 1/2 then f + 1
  else if f % 2 = 0 then f else f + 1

/-- `_build_global_scale`: all pitches in `[base_note - 24, base_note + 24]`
whose degree modulo 12 lies in the mode's interval set (the Python
`sorted` is the identity here since the list is built ascending). -/
def buildGlobalScale (cfg : Config) : List ℤ :=
  let intervals := intervalsOf cfg.mode
  ((List.range 49).map (fun i : ℕ => cfg.base_note - 24 + (i : ℤ))).filter
    (fun n => decide ((n - cfg.base_note) % 12 ∈ intervals))

/-- `_is_chord_tone`: pitch-class membership, ignoring octave. -/
def isChordTone (note : ℤ) (chord_notes : List ℤ) : Bool :=
  decide ((note % 12) ∈ chord_notes.map (fun n => n % 12))

/-- Mutable state of a `MelodicGenerator` instance together with the
loop-local state of `generate_phrase_grid` (`grid`, `prev_note`) and
the RNG cursor `k`. -/
structure St where
  curFunc : HFunc
  curName : String
  curNotes : List ℤ
  k : ℕ
  grid : List ℤ
  prev : ℤ

/-- `_next_chord`: draw the next function from the transition list of
the current one, then a chord from that function's bank; returns
`(next_function, chord_name, chord_notes, new_cursor)`. -/
def nextChord (σ : ℕ → ℚ) (k : ℕ) (f : HFunc) : HFunc × String × List ℤ × ℕ :=
  let r1 := randChoice σ k (chord_progression_rules f) HFunc.tonic
  let r2 := randChoice σ r1.2 (chord_library r1.1) ("C", [60, 64, 67])
  (r1.1, r2.1.1, r2.1.2, r2.2)

/-- The chord-change block at the top of the step loop
(`if step % self.chord_change_every == 0 and step != 0`). -/
def chordUpdate (cfg : Config) (σ : ℕ → ℚ) (step : ℕ) (st : St) : St :=
  if step % cfg.chord_change_every = 0 ∧ step ≠ 0 then
    let r := nextChord σ st.k st.curFunc
    { st with curFunc := r.1, curName := r.2.1, curNotes := r.2.2.1, k := r.2.2.2 }
  else st

/-- Candidate pool: global-scale pitches within `max_step_jump` of the
previous note, falling back to `[prev_note]` when empty. -/
def candidatesF (cfg : Config) (prev_note : ℤ) : List ℤ :=
  let cands := (buildGlobalScale cfg).filter (fun n => decide (|n - prev_note| ≤ cfg.max_step_jump))
  if cands = [] then [prev_note] else cands

/-- The weight of one candidate `n` (lines 158-192 of `test.py`),
accumulated exactly in source order. -/
def candWeight (cfg : Config) (chord_notes : List ℤ) (is_strong_beat : Bool)
    (pos_in_bar : ℕ) (target_pitch prev_note n : ℤ) : ℚ :=
  let w : ℚ := 1
  let dist : ℤ := |n - prev_note|
  let w := w * (1 / (1 + (dist : ℚ) * (65/100)))
  let w :=
    if is_strong_beat then
      if isChordTone n chord_notes then w * 5 else w * (1/10)
    else
      if isChordTone n chord_notes then w * (3/2) else w * (8/10)
  let trend_dist : ℤ := |n - target_pitch|
  let w := if trend_dist < 5 then w * (12/10) else w
  let w :=
    if pos_in_bar = cfg.steps_per_bar - 1 then
      if n % 12 = cfg.base_note % 12 then w * 2 else w
    else w
  w

/-- The candidate weight as the spec words it: a product of four
independent factors (distance, beat/chord-tone, trend proximity,
cadence). -/
def specWeight (cfg : Config) (chord_notes : List ℤ) (is_strong_beat : Bool)
    (pos_in_bar : ℕ) (target_pitch prev_note n : ℤ) : ℚ :=
  (1 / (1 + (65/100) * ((|n - prev_note| : ℤ) : ℚ))) *
  (if is_strong_beat then
     if isChordTone n chord_notes then 5 else 1/10
   else
     if isChordTone n chord_notes then 3/2 else 8/10) *
  (if |n - target_pitch| < 5 then 12/10 else 1) *
  (if pos_in_bar = cfg.steps_per_bar - 1 ∧ n % 12 = cfg.base_note % 12 then 2 else 1)

/-- Note sampling (lines 194-199): uniform fallback when the weight
total is not positive, weighted choice otherwise. -/
def chooseNote (σ : ℕ → ℚ) (k : ℕ) (candidates : List ℤ) (weights : List ℚ) : ℤ × ℕ :=
  if weights.sum ≤ 0 then randChoice σ k candidates 0
  else randChoicesW σ k candidates weights

/-- The sustain-extension `while` loop (lines 211-228), with explicit
fuel (`total_steps` suffices since `j` strictly increases while
`step + j < total_steps`). Arguments after `step`: fuel, `j`,
`sustain_run`, grid, RNG cursor. -/
def sustainAux (cfg : Config) (σ : ℕ → ℚ) (note : ℤ) (step : ℕ) :
    ℕ → ℕ → ℕ → List ℤ → ℕ → List ℤ × ℕ
  | 0, _, _, grid, k => (grid, k)
  | fuel + 1, j, sustain_run, grid, k =>
    if step + j < cfg.total_steps then
      if ((step + j) % cfg.steps_per_bar) % 4 = 0 then (grid, k)
      else
        let p_same :=
          if sustain_run < cfg.sustain_probs.length
          then cfg.sustain_probs.getD sustain_run 0 else (1/2 : ℚ)
        if σ k < p_same then
          sustainAux cfg σ note step fuel (j + 1) (sustain_run + 1) (grid.set (step + j) note) (k + 1)
        else (grid, k + 1)
    else (grid, k)

/-- The non-rest part of one loop iteration: candidate pool, weights,
sampling, grid write, and sustain extension. The RNG cursor in `st`
already points past the rest draw. -/
def noteStep (cfg : Config) (σ : ℕ → ℚ) (noise_scaled : List ℚ) (step : ℕ) (st : St) : St :=
  let pos_in_bar := step % cfg.steps_per_bar
  let is_strong_beat := decide (pos_in_bar % 4 = 0)
  let target_pitch := pyRound ((cfg.base_note : ℚ) + noise_scaled.getD (step / cfg.steps_per_bar) 0)
  let candidates := candidatesF cfg st.prev
  let weights := candidates.map (candWeight cfg st.curNotes is_strong_beat pos_in_bar target_pitch st.prev)
  let r := chooseNote σ st.k candidates weights
  let s := sustainAux cfg σ r.1 step cfg.total_steps 1 0 (st.grid.set step r.1) r.2
  { st with grid := s.1, prev := r.1, k := s.2 }

/-- One iteration of the step loop of `generate_phrase_grid`: chord
change, rest check (with the strong-beat factor 0.2), then either a
rest write or `noteStep`. -/
def stepBody (cfg : Config) (σ : ℕ → ℚ) (noise_scaled : List ℚ) (step : ℕ) (st : St) : St :=
  let st1 := chordUpdate cfg σ step st
  let is_strong_beat := decide ((step % cfg.steps_per_bar) % 4 = 0)
  let current_rest_prob := if is_strong_beat then cfg.rest_prob * (2/10) else cfg.rest_prob
  if σ st1.k < current_rest_prob then
    { st1 with grid := st1.grid.set step (-1), k := st1.k + 1 }
  else
    noteStep cfg σ noise_scaled step { st1 with k := st1.k + 1 }

/-- `bars = max(1, total_steps // steps_per_bar)`. -/
def bars (cfg : Config) : ℕ := max 1 (cfg.total_steps / cfg.steps_per_bar)

/-- The scaled trend curve `noise_scaled` (one value per bar). -/
def noiseScaled (cfg : Config) (pnoise1 : ℚ → ℚ) : List ℚ :=
  let noise_values := (List.range (bars cfg)).map (fun i : ℕ => pnoise1 ((i : ℚ) * (2/10)))
  noise_values.map (fun v => v * cfg.trend_strength * (cfg.max_span_semitones : ℚ))

/-- `MelodicGenerator.__init__`: seed the RNG (cursor 0 of `σ`), start
on the tonic function and draw the initial chord. -/
def mkGenerator (cfg : Config) (σ : ℕ → ℚ) : St :=
  let c := randChoice σ 0 (chord_library HFunc.tonic) ("C", [60, 64, 67])
  { curFunc := HFunc.tonic, curName := c.1.1, curNotes := c.1.2, k := c.2,
    grid := [], prev := cfg.base_note }

/-- Loop-entry state of `generate_phrase_grid`: grid of `total_steps`
rest cells, `prev_note = base_note`. -/
def initSt (cfg : Config) (σ : ℕ → ℚ) : St :=
  { mkGenerator cfg σ with grid := List.replicate cfg.total_steps (-1), prev := cfg.base_note }

/-- `generate_phrase_grid`: the full pass over steps
`0 .. total_steps - 1`. -/
def generatePhraseGrid (cfg : Config) (pnoise1 : ℚ → ℚ) (σ : ℕ → ℚ) : List ℤ :=
  ((List.range cfg.total_steps).foldl
    (fun st step => stepBody cfg σ (noiseScaled cfg pnoise1) step st) (initSt cfg σ)).grid


/-! ### Concrete instances used by counterexamples and witnesses -/

/-- Zero noise curve (trend contributes nothing). -/
def pnZero : ℚ → ℚ := fun _ => 0

/-- Constant draw stream 0. -/
def drawsZero : ℕ → ℚ := fun _ => 0

/-- Constant draw stream 1/2. -/
def drawsHalf : ℕ → ℚ := fun _ => 1/2

/-- Draw stream for the sustain-overwrite run: keep the step-0 note,
extend the sustain once, then rest at step 1. -/
def drawsOverwrite : ℕ → ℚ :=
  fun k => ([0, 9/10, 0, 0, 99/100, 3/10, 3/10, 3/10] : List ℚ).getD k 0

/-- `max_step_jump = 0`, no rests: every chosen note is the base note,
so identical pitches repeat across the strong beat at step 4. -/
def cfgJumpZero : Config :=
  { base_note := 60, total_steps := 5, steps_per_bar := 16, max_step_jump := 0,
    rest_prob := 0, trend_strength := 0 }

/-- Configuration for the sustain-overwrite run (4 steps, coin-flip
rests on weak beats). -/
def cfgOverwrite : Config :=
  { base_note := 60, total_steps := 4, steps_per_bar := 16, max_step_jump := 0,
    rest_prob := 1/2, trend_strength := 0 }

/-- `rest_prob = 1` with a single (strong-beat) step. -/
def cfgAllRest : Config := { total_steps := 1, rest_prob := 1 }

/-- `rest_prob = 1` with two steps (step 1 is a weak beat). -/
def cfgRestTwo : Config := { total_steps := 2, rest_prob := 1 }

/-- Two-step, jump-0, rest-free configuration (grid evaluates to
`[60, 60]`). -/
def cfgTwo : Config :=
  { base_note := 60, total_steps := 2, steps_per_bar := 16, max_step_jump := 0,
    rest_prob := 0, trend_strength := 0 }

/-- `total_steps = 24`, `steps_per_bar = 16`: a partial trailing bar. -/
def cfgUneven : Config := { total_steps := 24, steps_per_bar := 16 }

/-- Index safety of the per-step read `noise_scaled[step // steps_per_bar]`
(line 130 of `test.py`, executed at every step): every bar index stays
below the length `bars` of `noise_scaled`. -/
def noiseIndexSafe (cfg : Config) : Prop :=
  ∀ step, step < cfg.total_steps → step / cfg.steps_per_bar < bars cfg

/-! ### Helper lemmas -/

/-- A `getD` read at an in-range index is a member of the list. -/
theorem getD_mem {α : Type} : ∀ (l : List α) (i : ℕ) (d : α), i < l.length → l.getD i d ∈ l
  | a :: l, 0, _, _ => List.mem_cons_self a l
  | a :: l, i + 1, d, h =>
    List.mem_cons_of_mem a (getD_mem l i d (by simpa using Nat.lt_of_succ_lt_succ h))

/-- `random.choice` on a nonempty list returns a member. -/
theorem randChoice_mem {α : Type} (σ : ℕ → ℚ) (k : ℕ) (l : List α) (d : α) (h : l ≠ []) :
    (randChoice σ k l d).1 ∈ l := by
  have hlen : 0 < l.length := List.length_pos.2 h
  refine getD_mem l _ d ?_
  have : min (pyFloorNat (σ k * l.length)) (l.length - 1) ≤ l.length - 1 := Nat.min_le_right _ _
  omega

/-- `random.choices` on a nonempty population returns a member. -/
theorem randChoicesW_mem (σ : ℕ → ℚ) (k : ℕ) (pop : List ℤ) (ws : List ℚ) (h : pop ≠ []) :
    (randChoicesW σ k pop ws).1 ∈ pop := by
  have hlen : 0 < pop.length := List.length_pos.2 h
  refine getD_mem pop _ 0 ?_
  have : bisectRight (cumSum ws) (σ k * (cumSum ws).getLastD 0) (pop.length - 1) ≤ pop.length - 1 :=
    Nat.min_le_right _ _
  omega

/-- The sampled note is always one of the candidates. -/
theorem chooseNote_mem (σ : ℕ → ℚ) (k : ℕ) (c : List ℤ) (ws : List ℚ) (h : c ≠ []) :
    (chooseNote σ k c ws).1 ∈ c := by
  unfold chooseNote
  split
  · exact randChoice_mem σ k c 0 h
  · exact randChoicesW_mem σ k c ws h

/-- Characterization of the global scale: a bounded window around the
base note and degree membership in the mode's interval set. -/
theorem mem_buildGlobalScale (cfg : Config) (n : ℤ) :
    n ∈ buildGlobalScale cfg ↔
      cfg.base_note - 24 ≤ n ∧ n ≤ cfg.base_note + 24 ∧
        (n - cfg.base_note) % 12 ∈ intervalsOf cfg.mode := by
  unfold buildGlobalScale
  constructor
  · intro h
    obtain ⟨i, hi, hieq⟩ := List.mem_map.1 (List.mem_filter.1 h).1
    have hir := List.mem_range.1 hi
    have hdeg : (n - cfg.base_note) % 12 ∈ intervalsOf cfg.mode := by
      simpa using (List.mem_filter.1 h).2
    exact ⟨by omega, by omega, hdeg⟩
  · rintro ⟨h1, h2, hdeg⟩
    refine List.mem_filter.2 ⟨List.mem_map.2
      ⟨(n - (cfg.base_note - 24)).toNat, List.mem_range.2 (by omega), by omega⟩, by simpa using hdeg⟩

/-- The base note itself belongs to the global scale. -/
theorem base_mem_buildGlobalScale (cfg : Config) : cfg.base_note ∈ buildGlobalScale cfg := by
  rw [mem_buildGlobalScale]
  refine ⟨by omega, by omega, ?_⟩
  have h : (cfg.base_note - cfg.base_note) % 12 = 0 := by
    simp
  rw [h]
  cases cfg.mode <;> simp [intervalsOf, MAJOR_INTERVALS, MINOR_INTERVALS]

/-- The candidate pool is never empty (the `[prev]` fallback). -/
theorem candidatesF_ne_nil (cfg : Config) (p : ℤ) : candidatesF cfg p ≠ [] := by
  by_cases hc : (buildGlobalScale cfg).filter (fun n => decide (|n - p| ≤ cfg.max_step_jump)) = []
  · simp [candidatesF, hc]
  · simp [candidatesF, hc]

/-- Every candidate is a scale member or the previous note. -/
theorem mem_candidatesF (cfg : Config) (p n : ℤ) (h : n ∈ candidatesF cfg p) :
    n ∈ buildGlobalScale cfg ∨ n = p := by
  by_cases hc : (buildGlobalScale cfg).filter (fun n => decide (|n - p| ≤ cfg.max_step_jump)) = []
  · right
    rw [candidatesF] at h
    simp only [hc, if_pos rfl] at h
    simpa using h
  · left
    rw [candidatesF] at h
    simp only [hc, if_neg, ite_false] at h
    exact (List.mem_filter.1 h).1

/-- The sequentially accumulated weight equals the spec's four-factor
product. -/
theorem candWeight_eq_specWeight (cfg : Config) (chord_notes : List ℤ) (is_strong_beat : Bool)
    (pos_in_bar : ℕ) (target_pitch prev_note n : ℤ) :
    candWeight cfg chord_notes is_strong_beat pos_in_bar target_pitch prev_note n =
      specWeight cfg chord_notes is_strong_beat pos_in_bar target_pitch prev_note n := by
  simp only [candWeight, specWeight]
  split_ifs <;> first | ring1 | tauto

/-- Every candidate weight is strictly positive: all multipliers are
positive. -/
theorem candWeight_pos (cfg : Config) (chord_notes : List ℤ) (is_strong_beat : Bool)
    (pos_in_bar : ℕ) (target_pitch prev_note n : ℤ) :
    0 < candWeight cfg chord_notes is_strong_beat pos_in_bar target_pitch prev_note n := by
  rw [candWeight_eq_specWeight]
  have hd : (0 : ℚ) ≤ ((|n - prev_note| : ℤ) : ℚ) := by
    exact_mod_cast abs_nonneg (n - prev_note)
  unfold specWeight
  split_ifs <;> positivity

/-- `List.set` does not change other positions (in `getD` form). -/
theorem getD_set_ne {α : Type} (l : List α) (i j : ℕ) (v d : α) (h : i ≠ j) :
    (l.set i v).getD j d = l.getD j d := by
  simp [List.getD_eq_getElem?_getD, List.getElem?_set_ne h]

/-- The sustain loop never changes the grid's length. -/
theorem sustainAux_length (cfg : Config) (σ : ℕ → ℚ) (note : ℤ) (step : ℕ) :
    ∀ (fuel j run : ℕ) (grid : List ℤ) (k : ℕ),
      ((sustainAux cfg σ note step fuel j run grid k).1).length = grid.length := by
  intro fuel
  induction fuel with
  | zero => intro j run grid k; simp [sustainAux]
  | succ m ih =>
    intro j run grid k
    simp only [sustainAux]
    split_ifs <;> simp [ih]

/-- The sustain loop writes only at indices `≥ step + j`. -/
theorem sustainAux_getD_lt (cfg : Config) (σ : ℕ → ℚ) (note : ℤ) (step : ℕ) (i : ℕ) (d : ℤ) :
    ∀ (fuel j run : ℕ) (grid : List ℤ) (k : ℕ), i < step + j →
      ((sustainAux cfg σ note step fuel j run grid k).1).getD i d = grid.getD i d := by
  intro fuel
  induction fuel with
  | zero => intro j run grid k _; simp [sustainAux]
  | succ m ih =>
    intro j run grid k hij
    simp only [sustainAux]
    split_ifs <;>
      first
        | rfl
        | (rw [ih (j + 1) (run + 1) _ (k + 1) (by omega)]
           exact getD_set_ne _ _ _ _ _ (by omega))

/-- Every cell of the sustain loop's output is an old cell or the
sustained note. -/
theorem sustainAux_mem (cfg : Config) (σ : ℕ → ℚ) (note : ℤ) (step : ℕ) :
    ∀ (fuel j run : ℕ) (grid : List ℤ) (k : ℕ) (x : ℤ),
      x ∈ (sustainAux cfg σ note step fuel j run grid k).1 → x ∈ grid ∨ x = note := by
  intro fuel
  induction fuel with
  | zero => intro j run grid k x h; left; simpa [sustainAux] using h
  | succ m ih =>
    intro j run grid k x h
    simp only [sustainAux] at h
    split_ifs at h
    all_goals try (exact Or.inl h)
    all_goals
      (rcases ih _ _ _ _ x h with hx | hx <;>
        first
          | exact Or.inr hx
          | (rcases List.mem_or_eq_of_mem_set hx with hx2 | hx2 <;>
              first
                | exact Or.inl hx2
                | exact Or.inr hx2))

/-- Chord changes touch neither the grid nor the previous note. -/
theorem chordUpdate_grid (cfg : Config) (σ : ℕ → ℚ) (step : ℕ) (st : St) :
    (chordUpdate cfg σ step st).grid = st.grid := by
  unfold chordUpdate
  split <;> rfl

/-- Chord changes do not touch `prev_note`. -/
theorem chordUpdate_prev (cfg : Config) (σ : ℕ → ℚ) (step : ℕ) (st : St) :
    (chordUpdate cfg σ step st).prev = st.prev := by
  unfold chordUpdate
  split <;> rfl

/-- A non-rest step preserves the grid length. -/
theorem noteStep_length (cfg : Config) (σ : ℕ → ℚ) (ns : List ℚ) (step : ℕ) (st : St) :
    (noteStep cfg σ ns step st).grid.length = st.grid.length := by
  unfold noteStep
  simp [sustainAux_length]

/-- The note chosen by a non-rest step lies in the global scale
whenever the previous note does. -/
theorem noteStep_prev_mem (cfg : Config) (σ : ℕ → ℚ) (ns : List ℚ) (step : ℕ) (st : St)
    (h2 : st.prev ∈ buildGlobalScale cfg) :
    (noteStep cfg σ ns step st).prev ∈ buildGlobalScale cfg := by
  simp only [noteStep]
  have hmem := chooseNote_mem σ st.k (candidatesF cfg st.prev)
    (List.map (candWeight cfg st.curNotes (decide (step % cfg.steps_per_bar % 4 = 0))
      (step % cfg.steps_per_bar)
      (pyRound ((cfg.base_note : ℚ) + ns.getD (step / cfg.steps_per_bar) 0)) st.prev)
      (candidatesF cfg st.prev))
    (candidatesF_ne_nil cfg st.prev)
  rcases mem_candidatesF cfg st.prev _ hmem with hx | hx
  · exact hx
  · rw [hx]; exact h2

/-- A non-rest step keeps all cells in `{-1} ∪ scale`, given the
previous note is in scale. -/
theorem noteStep_cells (cfg : Config) (σ : ℕ → ℚ) (ns : List ℚ) (step : ℕ) (st : St)
    (h2 : st.prev ∈ buildGlobalScale cfg)
    (h3 : ∀ x ∈ st.grid, x = -1 ∨ x ∈ buildGlobalScale cfg) :
    ∀ x ∈ (noteStep cfg σ ns step st).grid, x = -1 ∨ x ∈ buildGlobalScale cfg := by
  have hmem := chooseNote_mem σ st.k (candidatesF cfg st.prev)
    ((candidatesF cfg st.prev).map (candWeight cfg st.curNotes
      (decide ((step % cfg.steps_per_bar) % 4 = 0)) (step % cfg.steps_per_bar)
      (pyRound ((cfg.base_note : ℚ) + ns.getD (step / cfg.steps_per_bar) 0)) st.prev))
    (candidatesF_ne_nil cfg st.prev)
  have hnote : ∀ m ∈ candidatesF cfg st.prev, m ∈ buildGlobalScale cfg := by
    intro m hm
    rcases mem_candidatesF cfg st.prev m hm with hx | hx
    · exact hx
    · simpa [hx] using h2
  intro x hx
  unfold noteStep at hx
  rcases sustainAux_mem cfg σ _ step _ _ _ _ _ x hx with hx2 | hx2
  · rcases List.mem_or_eq_of_mem_set hx2 with hx3 | hx3
    · exact h3 x hx3
    · right; rw [hx3]; exact hnote _ hmem
  · right; rw [hx2]; exact hnote _ hmem

/-- A non-rest step does not change cells before `step`. -/
theorem noteStep_getD_lt (cfg : Config) (σ : ℕ → ℚ) (ns : List ℚ) (step : ℕ) (st : St)
    (i : ℕ) (d : ℤ) (h : i < step) :
    (noteStep cfg σ ns step st).grid.getD i d = st.grid.getD i d := by
  unfold noteStep
  rw [sustainAux_getD_lt cfg σ _ step i d cfg.total_steps 1 0 _ _ (by omega)]
  exact getD_set_ne _ _ _ _ _ (by omega)

/-- One loop iteration preserves the grid length. -/
theorem stepBody_length (cfg : Config) (σ : ℕ → ℚ) (ns : List ℚ) (step : ℕ) (st : St) :
    (stepBody cfg σ ns step st).grid.length = st.grid.length := by
  simp only [stepBody]
  split_ifs <;> simp [noteStep_length, chordUpdate_grid]

/-- One loop iteration does not change cells before `step`. -/
theorem stepBody_getD_lt (cfg : Config) (σ : ℕ → ℚ) (ns : List ℚ) (step : ℕ) (st : St)
    (i : ℕ) (d : ℤ) (h : i < step) :
    (stepBody cfg σ ns step st).grid.getD i d = st.grid.getD i d := by
  simp only [stepBody]
  split_ifs <;>
    first
      | (show ((chordUpdate cfg σ step st).grid.set step (-1)).getD i d = st.grid.getD i d
         rw [getD_set_ne _ _ _ _ _ (by omega), chordUpdate_grid])
      | (rw [noteStep_getD_lt cfg σ ns step _ i d h]
         show (chordUpdate cfg σ step st).grid.getD i d = st.grid.getD i d
         rw [chordUpdate_grid])

/-- One loop iteration preserves the main invariant: grid length,
previous note in scale, every cell a rest or a scale member. -/
theorem stepBody_inv (cfg : Config) (σ : ℕ → ℚ) (ns : List ℚ) (step : ℕ) (st : St)
    (h1 : st.grid.length = cfg.total_steps)
    (h2 : st.prev ∈ buildGlobalScale cfg)
    (h3 : ∀ x ∈ st.grid, x = -1 ∨ x ∈ buildGlobalScale cfg) :
    (stepBody cfg σ ns step st).grid.length = cfg.total_steps ∧
    (stepBody cfg σ ns step st).prev ∈ buildGlobalScale cfg ∧
    ∀ x ∈ (stepBody cfg σ ns step st).grid, x = -1 ∨ x ∈ buildGlobalScale cfg := by
  simp only [stepBody]
  split_ifs <;>
    first
      | (refine ⟨by simp [chordUpdate_grid, h1], by simp [chordUpdate_prev, h2], ?_⟩
         intro x hx
         rcases List.mem_or_eq_of_mem_set hx with hx2 | hx2
         · exact h3 x (by rwa [chordUpdate_grid] at hx2)
         · exact Or.inl hx2)
      | (refine ⟨?_, ?_, ?_⟩
         · rw [noteStep_length]
           show (chordUpdate cfg σ step st).grid.length = cfg.total_steps
           rw [chordUpdate_grid]
           exact h1
         · refine noteStep_prev_mem cfg σ ns step _ ?_
           show (chordUpdate cfg σ step st).prev ∈ buildGlobalScale cfg
           rw [chordUpdate_prev]
           exact h2
         · refine noteStep_cells cfg σ ns step _ ?_ ?_
           · show (chordUpdate cfg σ step st).prev ∈ buildGlobalScale cfg
             rw [chordUpdate_prev]
             exact h2
           · show ∀ x ∈ (chordUpdate cfg σ step st).grid, x = -1 ∨ x ∈ buildGlobalScale cfg
             rw [chordUpdate_grid]
             exact h3)

/-- Invariant preservation along `List.foldl` over `List.range n`. -/
theorem foldl_range_inv {α : Type} (f : ℕ → α → α) (P : ℕ → α → Prop) :
    ∀ (n : ℕ) (a : α), P 0 a → (∀ s b, s < n → P s b → P (s + 1) (f s b)) →
      P n ((List.range n).foldl (fun b s => f s b) a) := by
  intro n
  induction n with
  | zero => intro a h0 _; simpa using h0
  | succ m ih =>
    intro a h0 hs
    rw [List.range_succ, List.foldl_append]
    simp only [List.foldl_cons, List.foldl_nil]
    exact hs m _ (Nat.lt_succ_self m)
      (ih a h0 (fun s b hsm hb => hs s b (Nat.lt_succ_of_lt hsm) hb))

/-- Shape and content of every generated grid: full length, and each
cell is the rest sentinel or a global-scale pitch. -/
theorem generatePhraseGrid_inv (cfg : Config) (pn : ℚ → ℚ) (σ : ℕ → ℚ) :
    (generatePhraseGrid cfg pn σ).length = cfg.total_steps ∧
    ∀ x ∈ generatePhraseGrid cfg pn σ, x = -1 ∨ x ∈ buildGlobalScale cfg := by
  have h := foldl_range_inv (stepBody cfg σ (noiseScaled cfg pn))
    (fun _ st => st.grid.length = cfg.total_steps ∧ st.prev ∈ buildGlobalScale cfg ∧
      ∀ x ∈ st.grid, x = -1 ∨ x ∈ buildGlobalScale cfg)
    cfg.total_steps (initSt cfg σ) ?base ?step
  case base =>
    refine ⟨by simp [initSt], ?_, ?_⟩
    · show (initSt cfg σ).prev ∈ buildGlobalScale cfg
      have : (initSt cfg σ).prev = cfg.base_note := rfl
      rw [this]
      exact base_mem_buildGlobalScale cfg
    · intro x hx
      have hx2 : x ∈ List.replicate cfg.total_steps (-1 : ℤ) := hx
      exact Or.inl (List.eq_of_mem_replicate hx2)
  case step =>
    intro s b _ hb
    exact stepBody_inv cfg σ (noiseScaled cfg pn) s b hb.1 hb.2.1 hb.2.2
  exact ⟨h.1, h.2.2⟩

/-! ### Claim theorems -/

/-- C6: at every non-rest step the weight assigned to a candidate `n`
is exactly the product of the distance term `1/(1 + 0.65*|n - prev|)`,
the beat/chord-tone term (5.0 / 0.1 on strong beats, 1.5 / 0.8 on weak
beats, by pitch-class chord membership), a factor 1.2 iff
`|n - target_pitch| < 5`, and a factor 2.0 iff the step is last in its
bar and `n mod 12 = base_note mod 12`. -/
theorem C6_weight_formula (cfg : Config) (chord_notes : List ℤ) (is_strong_beat : Bool)
    (pos_in_bar : ℕ) (target_pitch prev_note n : ℤ) :
    candWeight cfg chord_notes is_strong_beat pos_in_bar target_pitch prev_note n =
      specWeight cfg chord_notes is_strong_beat pos_in_bar target_pitch prev_note n :=
  candWeight_eq_specWeight cfg chord_notes is_strong_beat pos_in_bar target_pitch prev_note n

/-- C7: the harmonic state machine starts at tonic; every `_next_chord`
advance draws the next function from the current function's transition
list and a chord from that function's bank; in particular dominant is
never immediately followed by dominant. -/
theorem C7_chord_transitions :
    (∀ (cfg : Config) (σ : ℕ → ℚ), (mkGenerator cfg σ).curFunc = HFunc.tonic) ∧
    (∀ (σ : ℕ → ℚ) (k : ℕ) (f : HFunc),
      (nextChord σ k f).1 ∈ chord_progression_rules f ∧
      ((nextChord σ k f).2.1, (nextChord σ k f).2.2.1) ∈ chord_library (nextChord σ k f).1) ∧
    (∀ (σ : ℕ → ℚ) (k : ℕ), (nextChord σ k HFunc.dominant).1 ≠ HFunc.dominant) := by
  have hlib : ∀ g : HFunc, chord_library g ≠ [] := by
    intro g; cases g <;> simp [chord_library]
  have hrules : ∀ g : HFunc, chord_progression_rules g ≠ [] := by
    intro g; cases g <;> simp [chord_progression_rules]
  refine ⟨fun cfg σ => rfl, fun σ k f => ⟨?_, ?_⟩, fun σ k => ?_⟩
  · simp only [nextChord]
    exact randChoice_mem σ k (chord_progression_rules f) HFunc.tonic (hrules f)
  · simp only [nextChord]
    rw [Prod.mk.eta]
    exact randChoice_mem σ _ _ _ (hlib _)
  · simp only [nextChord]
    intro hc
    have h := randChoice_mem σ k (chord_progression_rules HFunc.dominant) HFunc.tonic
      (hrules HFunc.dominant)
    rw [hc] at h
    simp [chord_progression_rules] at h

/-- C9: generation is a pure function of the constructor arguments, the
noise curve and the seeded draw stream: equal inputs give element-wise
equal grids. -/
theorem C9_deterministic (cfg1 cfg2 : Config) (pn1 pn2 : ℚ → ℚ) (σ1 σ2 : ℕ → ℚ)
    (hc : cfg1 = cfg2) (hp : pn1 = pn2) (hs : σ1 = σ2) :
    generatePhraseGrid cfg1 pn1 σ1 = generatePhraseGrid cfg2 pn2 σ2 := by
  rw [hc, hp, hs]

/-- Witness for C9 at a concrete configuration. -/
theorem C9_deterministic_witness :
    generatePhraseGrid cfgTwo pnZero drawsZero = generatePhraseGrid cfgTwo pnZero drawsZero :=
  C9_deterministic cfgTwo cfgTwo pnZero pnZero drawsZero drawsZero rfl rfl rfl

/-- C10: every returned grid has length `total_steps` and each cell is
the rest sentinel -1 or an integer pitch of the global scale. -/
theorem C10_grid_shape (cfg : Config) (pn : ℚ → ℚ) (σ : ℕ → ℚ) :
    (generatePhraseGrid cfg pn σ).length = cfg.total_steps ∧
    ∀ x ∈ generatePhraseGrid cfg pn σ, x = -1 ∨ x ∈ buildGlobalScale cfg :=
  generatePhraseGrid_inv cfg pn σ

/-- Witness for C10 on a concrete two-step run. -/
theorem C10_grid_shape_witness :
    (generatePhraseGrid cfgTwo pnZero drawsZero).length = cfgTwo.total_steps ∧
    ((60 : ℤ) = -1 ∨ (60 : ℤ) ∈ buildGlobalScale cfgTwo) :=
  ⟨(C10_grid_shape cfgTwo pnZero drawsZero).1,
   (C10_grid_shape cfgTwo pnZero drawsZero).2 60 (by with_unfolding_all decide)⟩

/-- C5: every non-rest cell of a returned grid lies within two octaves
of the base note and its degree modulo 12 belongs to the mode's
interval set. -/
theorem C5_pitches_in_scale (cfg : Config) (pn : ℚ → ℚ) (σ : ℕ → ℚ) (x : ℤ)
    (hx : x ∈ generatePhraseGrid cfg pn σ) (hne : x ≠ -1) :
    cfg.base_note - 24 ≤ x ∧ x ≤ cfg.base_note + 24 ∧
      (x - cfg.base_note) % 12 ∈ intervalsOf cfg.mode := by
  rcases (generatePhraseGrid_inv cfg pn σ).2 x hx with h | h
  · exact absurd h hne
  · exact (mem_buildGlobalScale cfg x).1 h

/-- Witness for C5 on a concrete two-step run. -/
theorem C5_pitches_in_scale_witness :
    cfgTwo.base_note - 24 ≤ (60 : ℤ) ∧ (60 : ℤ) ≤ cfgTwo.base_note + 24 ∧
      ((60 : ℤ) - cfgTwo.base_note) % 12 ∈ intervalsOf cfgTwo.mode :=
  C5_pitches_in_scale cfgTwo pnZero drawsZero 60 (by with_unfolding_all decide)
    (by decide)

/-- C8: the candidate list is never empty (the `[prev]` fallback),
every weight is strictly positive, the weight total is positive, and
hence the degenerate uniform-choice branch of the sampler is never
taken. -/
theorem C8_weights_positive (cfg : Config) (chord_notes : List ℤ) (is_strong_beat : Bool)
    (pos_in_bar : ℕ) (target_pitch prev_note : ℤ) (σ : ℕ → ℚ) (k : ℕ) :
    candidatesF cfg prev_note ≠ [] ∧
    (∀ w ∈ (candidatesF cfg prev_note).map
        (candWeight cfg chord_notes is_strong_beat pos_in_bar target_pitch prev_note), 0 < w) ∧
    0 < ((candidatesF cfg prev_note).map
        (candWeight cfg chord_notes is_strong_beat pos_in_bar target_pitch prev_note)).sum ∧
    chooseNote σ k (candidatesF cfg prev_note)
        ((candidatesF cfg prev_note).map
          (candWeight cfg chord_notes is_strong_beat pos_in_bar target_pitch prev_note)) =
      randChoicesW σ k (candidatesF cfg prev_note)
        ((candidatesF cfg prev_note).map
          (candWeight cfg chord_notes is_strong_beat pos_in_bar target_pitch prev_note)) := by
  have hne := candidatesF_ne_nil cfg prev_note
  have hpos : ∀ w ∈ (candidatesF cfg prev_note).map
      (candWeight cfg chord_notes is_strong_beat pos_in_bar target_pitch prev_note), 0 < w := by
    intro w hw
    obtain ⟨a, _, rfl⟩ := List.mem_map.1 hw
    exact candWeight_pos cfg chord_notes is_strong_beat pos_in_bar target_pitch prev_note a
  have hmapne : (candidatesF cfg prev_note).map
      (candWeight cfg chord_notes is_strong_beat pos_in_bar target_pitch prev_note) ≠ [] := by
    simpa using hne
  have hsum := List.sum_pos _ hpos hmapne
  refine ⟨hne, hpos, hsum, ?_⟩
  unfold chooseNote
  rw [if_neg (not_le.2 hsum)]

/-- Witness for C8 at a concrete step configuration. -/
theorem C8_weights_positive_witness :
    candidatesF cfgTwo 60 ≠ [] ∧
    0 < candWeight cfgTwo [60, 64, 67] true 0 60 60 60 :=
  ⟨(C8_weights_positive cfgTwo [60, 64, 67] true 0 60 60 drawsZero 0).1,
   (C8_weights_positive cfgTwo [60, 64, 67] true 0 60 60 drawsZero 0).2.1
     (candWeight cfgTwo [60, 64, 67] true 0 60 60 60) (by with_unfolding_all decide)⟩

/-- C4: with positive `total_steps` and `steps_per_bar`, all bar-index
reads into `noise_scaled` (whose length is `bars`) stay in bounds iff
`total_steps ≤ steps_per_bar` or `steps_per_bar` divides `total_steps`. -/
theorem C4_noise_index_bounds (cfg : Config) (pn : ℚ → ℚ)
    (hT : 0 < cfg.total_steps) (hB : 0 < cfg.steps_per_bar) :
    (noiseScaled cfg pn).length = bars cfg ∧
    (noiseIndexSafe cfg ↔
      (cfg.total_steps ≤ cfg.steps_per_bar ∨ cfg.total_steps % cfg.steps_per_bar = 0)) := by
  constructor
  · simp [noiseScaled]
  constructor
  · intro hsafe
    by_contra hcon
    push_neg at hcon
    obtain ⟨hBT, hmod⟩ := hcon
    have hd := Nat.div_add_mod cfg.total_steps cfg.steps_per_bar
    have h1 : 1 ≤ cfg.total_steps / cfg.steps_per_bar :=
      (Nat.one_le_div_iff hB).2 (Nat.le_of_lt hBT)
    have hbars : bars cfg = cfg.total_steps / cfg.steps_per_bar := max_eq_right h1
    have hstep := hsafe (cfg.total_steps - 1) (by omega)
    rw [hbars] at hstep
    have hmod1 : 1 ≤ cfg.total_steps % cfg.steps_per_bar := Nat.one_le_iff_ne_zero.2 hmod
    have hle : cfg.total_steps / cfg.steps_per_bar ≤ (cfg.total_steps - 1) / cfg.steps_per_bar := by
      rw [Nat.le_div_iff_mul_le hB]
      have hd2 : (cfg.total_steps / cfg.steps_per_bar) * cfg.steps_per_bar
          = cfg.steps_per_bar * (cfg.total_steps / cfg.steps_per_bar) := Nat.mul_comm _ _
      omega
    omega
  · intro hdisj step hstep
    rcases hdisj with hTB | hmod
    · have hz : step / cfg.steps_per_bar = 0 := Nat.div_eq_of_lt (by omega)
      rw [hz]
      have hb1 : 1 ≤ bars cfg := le_max_left 1 _
      omega
    · have hdvd : cfg.steps_per_bar ∣ cfg.total_steps := Nat.dvd_of_mod_eq_zero hmod
      have hlt : step / cfg.steps_per_bar < cfg.total_steps / cfg.steps_per_bar :=
        Nat.div_lt_div_of_lt_of_dvd hdvd hstep
      have hb2 : cfg.total_steps / cfg.steps_per_bar ≤ bars cfg := le_max_right 1 _
      omega

/-- Witness for C4: the 24-step, 16-steps-per-bar configuration reads
out of bounds. -/
theorem C4_noise_index_bounds_witness : ¬ noiseIndexSafe cfgUneven := fun hs =>
  absurd ((C4_noise_index_bounds cfgUneven pnZero (by decide) (by decide)).2.1 hs)
    (by decide)

set_option maxRecDepth 8000 in
/-- C2 (counterexample): in the grid of the jump-0, rest-free run the
cells at steps 3 and 4 carry the same non-rest pitch although step 4
is a strong beat, refuting the claimed grid-level invariant. -/
theorem C2_counterexample :
    ¬ (∀ i, 1 ≤ i → i < cfgJumpZero.total_steps →
        (generatePhraseGrid cfgJumpZero pnZero drawsZero).getD i (-2) =
          (generatePhraseGrid cfgJumpZero pnZero drawsZero).getD (i - 1) (-2) →
        (generatePhraseGrid cfgJumpZero pnZero drawsZero).getD i (-2) ≠ -1 →
        (i % cfgJumpZero.steps_per_bar) % 4 ≠ 0) :=
  fun h => h 4 (by decide) (by with_unfolding_all decide)
    (by with_unfolding_all decide) (by with_unfolding_all decide)
    (by with_unfolding_all decide)

/-- C2 (amended): the sustain-extension loop itself never writes into a
strong-beat cell — it cuts before every strong beat; equal adjacent
pitches across a strong beat can still appear because the outer loop
re-decides every cell. -/
theorem C2_sustain_never_writes_strong (cfg : Config) (σ : ℕ → ℚ) (note : ℤ) (step : ℕ)
    (fuel j run : ℕ) (grid : List ℤ) (k : ℕ) (i : ℕ) (d : ℤ)
    (hi : (i % cfg.steps_per_bar) % 4 = 0) :
    ((sustainAux cfg σ note step fuel j run grid k).1).getD i d = grid.getD i d := by
  induction fuel generalizing j run grid k with
  | zero => simp [sustainAux]
  | succ m ih =>
    simp only [sustainAux]
    split_ifs with h1 h2 h3
    all_goals try rfl
    all_goals
      (rw [ih]
       refine getD_set_ne _ _ _ _ _ ?_
       intro hc
       rw [hc] at h2
       exact h2 hi)

/-- Witness for the amended C2 at a concrete strong-beat index. -/
theorem C2_sustain_never_writes_strong_witness :
    ((sustainAux cfgTwo drawsZero 60 0 4 1 0 [1, 2, 3, 4] 0).1).getD 0 (-2) =
      ([1, 2, 3, 4] : List ℤ).getD 0 (-2) :=
  C2_sustain_never_writes_strong cfgTwo drawsZero 60 0 4 1 0 [1, 2, 3, 4] 0 0 (-2) (by decide)

/-- Reading back the cell just written by `List.set`. -/
theorem getD_set_self {α : Type} (l : List α) (i : ℕ) (v d : α) (h : i < l.length) :
    (l.set i v).getD i d = v := by
  simp [List.getD_eq_getElem?_getD, List.getElem?_set_self h]

set_option maxRecDepth 8000 in
/-- C3 (counterexample): with `rest_prob = 1` the strong-beat rest
probability is only 0.2, so a draw of 1/2 at step 0 emits a pitch, not
a rest — the grid is not all rests. -/
theorem C3_counterexample :
    ¬ (∀ x ∈ generatePhraseGrid cfgAllRest pnZero drawsHalf, x = -1) := by
  with_unfolding_all decide

/-- C3 (amended): with `rest_prob = 1` and all draws below 1, every
weak-beat cell of the returned grid is the rest sentinel (strong-beat
cells may still carry pitches, since they rest only when the draw falls
below `rest_prob * 0.2`). -/
theorem C3_weak_cells_rest (cfg : Config) (pn : ℚ → ℚ) (σ : ℕ → ℚ)
    (hr : cfg.rest_prob = 1) (hσ : ∀ k, σ k < 1) (i : ℕ) (hi : i < cfg.total_steps)
    (hw : (i % cfg.steps_per_bar) % 4 ≠ 0) :
    (generatePhraseGrid cfg pn σ).getD i (-1) = -1 := by
  have h := foldl_range_inv (stepBody cfg σ (noiseScaled cfg pn))
    (fun s st => st.grid.length = cfg.total_steps ∧
      ∀ j, j < s → (j % cfg.steps_per_bar) % 4 ≠ 0 → st.grid.getD j (-1) = -1)
    cfg.total_steps (initSt cfg σ) ?base ?step
  · exact h.2 i hi hw
  case base =>
    exact ⟨by simp [initSt], fun j hj _ => absurd hj (Nat.not_lt_zero j)⟩
  case step =>
    intro s st hslt hinv
    obtain ⟨hlen, hcells⟩ := hinv
    refine ⟨by rw [stepBody_length]; exact hlen, ?_⟩
    intro j hj hwj
    rcases Nat.lt_or_ge j s with hjs | hjs
    · rw [stepBody_getD_lt cfg σ (noiseScaled cfg pn) s st j (-1) hjs]
      exact hcells j hjs hwj
    · have hjeq : j = s := by omega
      subst hjeq
      simp only [stepBody]
      have hdec : decide (j % cfg.steps_per_bar % 4 = 0) = false := by
        simpa using hwj
      have hcond : σ (chordUpdate cfg σ j st).k <
          (if (decide (j % cfg.steps_per_bar % 4 = 0)) = true
           then cfg.rest_prob * (2/10) else cfg.rest_prob) := by
        rw [hdec, if_neg Bool.false_ne_true, hr]
        exact hσ _
      rw [if_pos hcond]
      show ((chordUpdate cfg σ j st).grid.set j (-1)).getD j (-1) = -1
      refine getD_set_self _ _ _ _ ?_
      have hcg : (chordUpdate cfg σ j st).grid = st.grid := chordUpdate_grid cfg σ j st
      rw [hcg]
      omega

/-- Witness for the amended C3 at a concrete weak-beat index. -/
theorem C3_weak_cells_rest_witness :
    (generatePhraseGrid cfgRestTwo pnZero drawsHalf).getD 1 (-1) = -1 :=
  C3_weak_cells_rest cfgRestTwo pnZero drawsHalf rfl
    (fun k => by norm_num [drawsHalf]) 1 (by decide) (by decide)

set_option maxRecDepth 8000 in
/-- C1: the sustain loop at step 0 copies the chosen pitch 60 into cell
1, but the outer loop does not skip that cell — at step 1 it re-decides
it (drawing a rest here), so the returned grid holds -1 where the
sustained pitch was written. -/
theorem C1_sustain_overwritten :
    ((stepBody cfgOverwrite drawsOverwrite (noiseScaled cfgOverwrite pnZero) 0
        (initSt cfgOverwrite drawsOverwrite)).grid.getD 1 (-2) = 60) ∧
    (generatePhraseGrid cfgOverwrite pnZero drawsOverwrite).getD 1 (-2) = -1 := by
  with_unfolding_all decide
